import Mathlib

/-!
Verification of the sudo-rs policy core (sudoers parser, authorization
policy and environment filter) against its natural-language specification.

The parser of `lib/sudoers/src/ast.rs` is embedded shallowly: the mutable
`Peekable<impl Iterator<Item = char>>` stream becomes explicit state
passing over `List Char`, and the three-valued `Parsed<T>` outcome
(accept / soft-reject / hard-error) becomes `Except PStatus`.  The
combinator primitives and token classes of `basic_parser.rs` /
`tokens.rs` are not part of the provided sources and are modelled from
the specification (section 4.1 and section 6); every definition that is
modelled this way says so in its doc comment.
-/

namespace SudoRS

/-! ## Parser primitives (modelled from the spec, section 4.1) -/

/-- Outcome status of a failed parse: soft reject (no input consumed, the
caller may try an alternative) or hard error (malformed input). -/
inductive PStatus where
  | reject
  | fatal (msg : String)
deriving DecidableEq

/-- A parser consumes characters from the front of the stream and returns
either a value or a `PStatus`, together with the remaining stream. -/
def Parser (α : Type) : Type := List Char → Except PStatus α × List Char

/-- Lift a pure value (the `make` function of `basic_parser.rs`). -/
def pmake {α : Type} (a : α) : Parser α := fun s => (.ok a, s)

/-- Soft rejection (the `reject` function of `basic_parser.rs`). -/
def preject {α : Type} : Parser α := fun s => (.error .reject, s)

/-- Hard error (the `unrecoverable!` macro of `basic_parser.rs`). -/
def pfatal {α : Type} (msg : String) : Parser α := fun s => (.error (.fatal msg), s)

/-- Modelled from the spec: whitespace separating tokens is spaces or tabs. -/
def isBlank (c : Char) : Bool := c == ' ' || c == '\t'

/-- Consume the run of blanks at the front of the stream. -/
def skipWs : List Char → List Char
  | c :: s => if isBlank c then skipWs s else c :: s
  | [] => []

/-- Modelled from the spec: `accept_if(pred)` consumes one character if it
matches and soft-rejects otherwise. -/
def accept_if (p : Char → Bool) : Parser Char := fun s =>
  match s with
  | c :: rest => if p c then (.ok c, rest) else (.error .reject, c :: rest)
  | [] => (.error .reject, [])

/-- Modelled from the spec: `is_syntax(c)` consumes `c` (and trailing
whitespace) if present and never hard-errors; it reports whether `c` was
seen. -/
def symOpt (c : Char) : Parser Bool := fun s =>
  match s with
  | d :: rest => if d = c then (.ok true, skipWs rest) else (.ok false, d :: rest)
  | [] => (.ok false, [])

/-- Modelled from the spec: `try_syntax(c)`, the soft-rejecting variant of
consuming the single character `c` plus trailing whitespace. -/
def symTry (c : Char) : Parser Unit := fun s =>
  match s with
  | d :: rest => if d = c then (.ok (), skipWs rest) else (.error .reject, d :: rest)
  | [] => (.error .reject, [])

/-- Modelled from the spec: `expect_syntax(c)` hard-errors when `c` is
missing. -/
def symExpect (c : Char) : Parser Unit := fun s =>
  match symTry c s with
  | (.error .reject, s') => (.error (.fatal "parse error: expected symbol"), s')
  | r => r

/-- Modelled from the spec: `expect_nonterminal` turns the soft rejection
of a sub-parser into a hard error. -/
def expectNT {α : Type} (p : Parser α) : Parser α := fun s =>
  match p s with
  | (.error .reject, s') => (.error (.fatal "parse error: expected nonterminal"), s')
  | r => r

/-- The `maybe` helper of `basic_parser.rs`: a soft rejection becomes
`none`, a hard error is propagated.  Also models the parser for
`Option<T>` used by `while let Some(..) = try_nonterminal(..)?` loops. -/
def maybeP {α : Type} (p : Parser α) : Parser (Option α) := fun s =>
  match p s with
  | (.ok a, s') => (.ok (some a), s')
  | (.error .reject, s') => (.ok none, s')
  | (.error (.fatal m), s') => (.error (.fatal m), s')

/-- Modelled from the spec: a token is a non-empty character run whose
first character satisfies `a1` and whose remaining characters satisfy
`aR`; trailing whitespace after the token is consumed.  (The source's
per-token maximum length is not modelled; no claim depends on it.) -/
def tokenParse (a1 aR : Char → Bool) : Parser (List Char) := fun s =>
  match s with
  | c :: rest =>
    if a1 c then
      (.ok (c :: rest.takeWhile aR), skipWs (rest.dropWhile aR))
    else (.error .reject, c :: rest)
  | [] => (.error .reject, [])

/-! ## Token classes (modelled from the spec, section 6) -/

/-- Modelled from the spec: identifiers are `[A-Za-z_][A-Za-z0-9_-]*`. -/
def identStart (c : Char) : Bool := c.isAlpha || c == '_'

/-- Continuation characters of an identifier. -/
def identCont (c : Char) : Bool := c.isAlphanum || c == '_' || c == '-'

/-- Continuation characters of an upper-case keyword identifier
(`[A-Z][A-Z0-9_]*`). -/
def upperCont (c : Char) : Bool := c.isUpper || c.isDigit || c == '_'

/-- The `Username` token. -/
def usernameParse : Parser String := fun s =>
  match tokenParse identStart identCont s with
  | (.ok cs, s') => (.ok (String.mk cs), s')
  | (.error e, s') => (.error e, s')

/-- The `Upper` token: an upper-case keyword identifier. -/
def upperParse : Parser String := fun s =>
  match tokenParse Char.isUpper upperCont s with
  | (.ok cs, s') => (.ok (String.mk cs), s')
  | (.error e, s') => (.error e, s')

/-- Numeric value of a run of decimal digits. -/
def natOfDigits (ds : List Char) : Nat :=
  ds.foldl (fun n c => 10 * n + (c.toNat - 48)) 0

/-- The `Digits` token (`#N` numeric ids). -/
def digitsParse : Parser Nat := fun s =>
  match tokenParse Char.isDigit Char.isDigit s with
  | (.ok cs, s') => (.ok (natOfDigits cs), s')
  | (.error e, s') => (.error e, s')

/-- The `Decimal` token (for `TIMEOUT=N`). -/
def decimalParse : Parser Int := fun s =>
  match tokenParse Char.isDigit Char.isDigit s with
  | (.ok cs, s') => (.ok (Int.ofNat (natOfDigits cs)), s')
  | (.error e, s') => (.error e, s')

/-- Modelled from the spec: quoted strings use double quotes with no
escape processing; the token is the text up to the closing quote. -/
def quotedTextParse : Parser String := fun s =>
  match tokenParse (fun c => !(c == '"' || c == '\n')) (fun c => !(c == '"' || c == '\n')) s with
  | (.ok cs, s') => (.ok (String.mk cs), s')
  | (.error e, s') => (.error e, s')

/-- Modelled from the spec: an unquoted include path runs to the next
whitespace. -/
def includePathParse : Parser String := fun s =>
  match tokenParse (fun c => !(isBlank c || c == '\n' || c == '"')) (fun c => !(isBlank c || c == '\n')) s with
  | (.ok cs, s') => (.ok (String.mk cs), s')
  | (.error e, s') => (.error e, s')

/-- Modelled from the spec: an environment variable / Defaults setting
name, identifier-shaped. -/
def envVarParse : Parser String := fun s =>
  match tokenParse identStart (fun c => c.isAlphanum || c == '_') s with
  | (.ok cs, s') => (.ok (String.mk cs), s')
  | (.error e, s') => (.error e, s')

/-- Modelled from the spec: an unquoted string value of a Defaults
setting runs to the next whitespace. -/
def stringParamParse : Parser String := fun s =>
  match tokenParse (fun c => !(isBlank c || c == '\n' || c == '"')) (fun c => !(isBlank c || c == '\n')) s with
  | (.ok cs, s') => (.ok (String.mk cs), s')
  | (.error e, s') => (.error e, s')

/-- Characters allowed in a hostname token. -/
def hostChar (c : Char) : Bool := c.isAlphanum || c == '.' || c == '-' || c == '_'

/-- Characters allowed after the first character of a command token.
Modelled from the spec: a command is an absolute path or an upper-case
alias reference; the argument pattern after the path is not modelled, as
no claim depends on command-argument matching. -/
def cmdCont (c : Char) : Bool := !(isBlank c || c == ',' || c == ':' || c == '=' || c == '\n' || c == '(' || c == ')')

/-- First character of a command token. -/
def cmdStart (c : Char) : Bool := c == '/' || c.isAlphanum

/-! ## The AST of `lib/sudoers/src/ast.rs` -/

/-- The Sudoers file allows negating items with the exclamation mark. -/
inductive Qualified (α : Type) where
  | Allow (x : α)
  | Forbid (x : α)
deriving DecidableEq

/-- `Meta<T>`: the wildcard `ALL`, an alias reference, or a literal item. -/
inductive Meta (α : Type) where
  | All
  | Only (x : α)
  | Alias (name : String)
deriving DecidableEq

/-- `Spec<T> = Qualified<Meta<T>>`. -/
abbrev Spec (α : Type) := Qualified (Meta α)

/-- `SpecList<T>`: ordered sequence of `Spec<T>`. -/
abbrev SpecList (α : Type) := List (Spec α)

/-- An identifier is a name or a `#number`. -/
inductive Identifier where
  | Name (s : String)
  | ID (n : Nat)
deriving DecidableEq

/-- A userspecifier: a username, a group (`%`), or a non-unix group (`%:`). -/
inductive UserSpecifier where
  | User (i : Identifier)
  | Group (i : Identifier)
  | NonunixGroup (i : Identifier)
deriving DecidableEq

/-- Hostnames are plain tokens. -/
abbrev Hostname := String

/-- Commands; the argument pattern is not modelled (see `cmdCont`). -/
abbrev Command := String

/-- The RunAs specification: a list of userspecifiers and a list of groups. -/
structure RunAs where
  users : SpecList UserSpecifier
  groups : SpecList Identifier
deriving DecidableEq

/-- Attributes attached to commands: `NOPASSWD:` or `TIMEOUT=N`. -/
inductive Tag where
  | NoPasswd
  | Timeout (n : Int)
deriving DecidableEq

/-- A command with attached attributes: `CommandSpec(Vec<Tag>, Spec<Command>)`. -/
structure CommandSpec where
  tags : List Tag
  cmd : Spec Command
deriving DecidableEq

/-- One sudoer-permission line: a userlist and a list of
`(hostlist, runas, commandspecs)` triples. -/
structure PermissionSpec where
  users : SpecList UserSpecifier
  permissions : List (SpecList Hostname × Option RunAs × List CommandSpec)
deriving DecidableEq

/-- An alias definition (`Def<T>` in the source). -/
structure AliasDef (α : Type) where
  name : String
  list : SpecList α
deriving DecidableEq

/-- List update modes of a `Defaults` directive. -/
inductive Mode where
  | Add
  | Set
  | Del
deriving DecidableEq

/-- Value assigned by a `Defaults` directive. -/
inductive DefaultValue where
  | Flag (b : Bool)
  | Text (s : String)
  | List (m : Mode) (items : List String)
deriving DecidableEq

/-- Directives: alias definitions and `Defaults`. -/
inductive Directive where
  | UserAlias (d : AliasDef UserSpecifier)
  | HostAlias (d : AliasDef Hostname)
  | CmndAlias (d : AliasDef Command)
  | RunasAlias (d : AliasDef UserSpecifier)
  | Defaults (name : String) (v : DefaultValue)
deriving DecidableEq

/-- Top-level item of a sudoers file. -/
inductive Sudo where
  | Spec (ps : PermissionSpec)
  | Decl (d : Directive)
  | Include (path : String)
  | IncludeDir (path : String)
  | LineComment
deriving DecidableEq

/-! ## The Defaults name predicates (`ast.rs`, temporary stubs) -/

/-- `is_bool_param` from `ast.rs`: a stub accepting every name. -/
def is_bool_param (_name : String) : Bool := true

/-- `is_list_param` from `ast.rs`: every name except `secure_path` and
`lecture_file` is treated as a list parameter. -/
def is_list_param (name : String) : Bool :=
  name != "secure_path" && name != "lecture_file"

/-! ## Grammar parsers (`lib/sudoers/src/ast.rs`) -/

/-- `impl Parse for Identifier`: `#` followed by digits is a numeric id,
otherwise a `Username` token. -/
def identifierParse : Parser Identifier := fun s =>
  match accept_if (fun c => c == '#') s with
  | (.ok _, s₁) =>
    match expectNT digitsParse s₁ with
    | (.ok n, s₂) => (.ok (.ID n), s₂)
    | (.error e, s₂) => (.error e, s₂)
  | (.error _, _) =>
    match usernameParse s with
    | (.ok name, s₁) => (.ok (.Name name), s₁)
    | (.error e, s₁) => (.error e, s₁)

/-- The `while is_syntax('!', stream)? { neg = !neg }` loop of
`Qualified::parse`: consume a run of further `!` marks, flipping the
parity each time.  The `ws` flag is true right after a consumed `!`,
where `is_syntax` has eaten the trailing whitespace; folding that skip
into the loop keeps the recursion structural. -/
def bangLoop (neg : Bool) (ws : Bool) : List Char → Bool × List Char
  | [] => (neg, [])
  | c :: rest =>
    if ws && isBlank c then bangLoop neg true rest
    else if c = '!' then bangLoop (!neg) true rest
    else (neg, c :: rest)

/-- `impl<T: Parse> Parse for Qualified<T>`: consume a run of `!`
prefixes, take the parity, and parse the item (hard when at least one
`!` was consumed, soft otherwise). -/
def qualifiedParse {α : Type} (p : Parser α) : Parser (Qualified α) := fun s =>
  match symOpt '!' s with
  | (.ok true, s₁) =>
    let r := bangLoop true false s₁
    match expectNT p r.2 with
    | (.ok a, s₃) => (.ok (if r.1 then .Forbid a else .Allow a), s₃)
    | (.error e, s₃) => (.error e, s₃)
  | (_, _) =>
    match p s with
    | (.ok a, s₁) => (.ok (.Allow a), s₁)
    | (.error e, s₁) => (.error e, s₁)

/-- Whether a raw token spells an upper-case keyword identifier
(`[A-Z][A-Z0-9_]*`), making it an alias reference inside `Meta`. -/
def isUpperIdentChars : List Char → Bool
  | c :: rest => c.isUpper && rest.all upperCont
  | [] => false

/-- Modelled from the spec: the parser for `Meta<T>` when `T` is a plain
token — the literal keyword `ALL` is the wildcard, a bare upper-case
identifier is an alias reference, anything else is the token itself. -/
def metaTokenParse (a1 aR : Char → Bool) : Parser (Meta String) := fun s =>
  match tokenParse a1 aR s with
  | (.ok cs, s') =>
    if cs = "ALL".toList then (.ok .All, s')
    else if isUpperIdentChars cs then (.ok (.Alias (String.mk cs)), s')
    else (.ok (.Only (String.mk cs)), s')
  | (.error e, s') => (.error e, s')

/-- The parser for `Meta<Username>` used by `parse_meta`. -/
def metaUsernameParse : Parser (Meta String) := metaTokenParse identStart identCont

/-- `parse_meta` from `ast.rs`: parse `Meta<T>` for a `T` that is not a
token, re-using the `Meta<Username>` parser for the `ALL`/alias/name
cases and falling back to `T`'s own parser. -/
def parse_meta {α : Type} (p : Parser α) (embed : String → α) : Parser (Meta α) := fun s =>
  match maybeP metaUsernameParse s with
  | (.ok (some m), s') =>
    (.ok (match m with
          | .All => .All
          | .Alias a => .Alias a
          | .Only name => .Only (embed name)), s')
  | (.ok none, s') =>
    match p s' with
    | (.ok a, s₂) => (.ok (.Only a), s₂)
    | (.error e, s₂) => (.error e, s₂)
  | (.error e, s') => (.error e, s')

/-- `impl Parse for UserSpecifier`: `%` begins a group, `%:` a non-unix
group, `+` a netgroup (rejected as unsupported with a hard error), and
anything else a user identifier. -/
def userSpecifierParse : Parser UserSpecifier := fun s =>
  match accept_if (fun c => c == '%') s with
  | (.ok _, s₁) =>
    match accept_if (fun c => c == ':') s₁ with
    | (.ok _, s₂) =>
      match expectNT identifierParse s₂ with
      | (.ok i, s₃) => (.ok (.NonunixGroup i), s₃)
      | (.error e, s₃) => (.error e, s₃)
    | (.error _, _) =>
      match expectNT identifierParse s₁ with
      | (.ok i, s₃) => (.ok (.Group i), s₃)
      | (.error e, s₃) => (.error e, s₃)
  | (.error _, _) =>
    match accept_if (fun c => c == '+') s with
    | (.ok _, s₁) => (.error (.fatal "netgroups are not supported yet"), s₁)
    | (.error _, _) =>
      match identifierParse s with
      | (.ok i, s₁) => (.ok (.User i), s₁)
      | (.error e, s₁) => (.error e, s₁)

/-- The parser for `Meta<UserSpecifier>`. -/
def metaUserSpecParse : Parser (Meta UserSpecifier) :=
  parse_meta userSpecifierParse (fun name => .User (.Name name))

/-- The parser for `Meta<Identifier>`. -/
def metaIdentifierParse : Parser (Meta Identifier) :=
  parse_meta identifierParse .Name

/-- The parser for `Meta<Hostname>`. -/
def metaHostParse : Parser (Meta Hostname) := metaTokenParse hostChar hostChar

/-- The parser for `Meta<Command>`. -/
def metaCommandParse : Parser (Meta Command) := metaTokenParse cmdStart cmdCont

/-- Modelled from the spec: `many<T>(sep)` — the continuation loop,
fuelled by the input length (every iteration consumes the separator). -/
def manyLoop {α : Type} (p : Parser α) (sep : Char) : Nat → List α → Parser (List α)
  | 0, _ => pfatal "out of fuel"
  | fuel + 1, acc => fun s =>
    match symOpt sep s with
    | (.ok true, s₁) =>
      match expectNT p s₁ with
      | (.ok a, s₂) => manyLoop p sep fuel (acc ++ [a]) s₂
      | (.error e, s₂) => (.error e, s₂)
    | (_, _) => (.ok acc, s)

/-- Modelled from the spec: `many<T>(sep)` parses at least one `T`,
separated by `sep`; the first element soft-rejects, later ones are
expected. -/
def manyParse {α : Type} (p : Parser α) (sep : Char) : Parser (List α) := fun s =>
  match p s with
  | (.ok a, s₁) => manyLoop p sep (s₁.length + 1) [a] s₁
  | (.error e, s₁) => (.error e, s₁)

/-- The parser for `SpecList<UserSpecifier>` (comma-separated). -/
def specListUserParse : Parser (SpecList UserSpecifier) :=
  manyParse (qualifiedParse metaUserSpecParse) ','

/-- The parser for `SpecList<Identifier>` (comma-separated). -/
def specListIdentParse : Parser (SpecList Identifier) :=
  manyParse (qualifiedParse metaIdentifierParse) ','

/-- The parser for `SpecList<Hostname>` (comma-separated). -/
def specListHostParse : Parser (SpecList Hostname) :=
  manyParse (qualifiedParse metaHostParse) ','

/-- The parser for `Spec<Command>`. -/
def specCommandParse : Parser (Spec Command) := qualifiedParse metaCommandParse

/-- `impl Parse for RunAs`: `"(", userlist, (":", grouplist?)?, ")"`.
A failing userlist is replaced by the default empty list
(`try_nonterminal(stream).unwrap_or_default()`). -/
def runAsParse : Parser RunAs := fun s =>
  match symTry '(' s with
  | (.error e, s') => (.error e, s')
  | (.ok _, s₁) =>
    let ru : SpecList UserSpecifier × List Char :=
      match specListUserParse s₁ with
      | (.ok us, s₂) => (us, s₂)
      | (.error _, s₂) => ([], s₂)
    match symTry ':' ru.2 with
    | (.error _, _) =>
      match symExpect ')' ru.2 with
      | (.ok _, s₄) => (.ok ⟨ru.1, []⟩, s₄)
      | (.error e, s₄) => (.error e, s₄)
    | (.ok _, s₃) =>
      match specListIdentParse s₃ with
      | (.ok gs, s₄) =>
        match symExpect ')' s₄ with
        | (.ok _, s₅) => (.ok ⟨ru.1, gs⟩, s₅)
        | (.error e, s₅) => (.error e, s₅)
      | (.error .reject, s₄) =>
        match symExpect ')' s₄ with
        | (.ok _, s₅) => (.ok ⟨ru.1, []⟩, s₅)
        | (.error e, s₅) => (.error e, s₅)
      | (.error (.fatal m), s₄) => (.error (.fatal m), s₄)

/-- `impl Parse for MetaOrTag`: the tag keywords `NOPASSWD:` and
`TIMEOUT=N` come back as `Only`, the keyword `ALL` as `All`, and any
other upper-case identifier as an alias reference (terminating the tag
prefix). -/
def metaOrTagParse : Parser (Meta Tag) := fun s =>
  match upperParse s with
  | (.error e, s') => (.error e, s')
  | (.ok keyword, s₁) =>
    if keyword = "NOPASSWD" then
      match symExpect ':' s₁ with
      | (.ok _, s₂) => (.ok (.Only .NoPasswd), s₂)
      | (.error e, s₂) => (.error e, s₂)
    else if keyword = "TIMEOUT" then
      match symExpect '=' s₁ with
      | (.ok _, s₂) =>
        match expectNT decimalParse s₂ with
        | (.ok t, s₃) => (.ok (.Only (.Timeout t)), s₃)
        | (.error e, s₃) => (.error e, s₃)
      | (.error e, s₂) => (.error e, s₂)
    else if keyword = "ALL" then (.ok .All, s₁)
    else (.ok (.Alias keyword), s₁)

/-- `CommandSpec::LIMIT`: the element limit inherited from the `Many`
trait.  Modelled from the spec: the trait's default constants live in
`basic_parser.rs`, which is not among the provided sources; the concrete
bound is fixed here at 127. -/
def CommandSpec.LIMIT : Nat := 127

/-- The tag-collecting loop of `CommandSpec::parse`, fuelled by the
input length (every parsed tag consumes input).  A tag is pushed and the
count checked against `CommandSpec::LIMIT`; `ALL` or an alias ends the
spec; when no further keyword parses, the remaining input is the
command. -/
def commandSpecLoop : Nat → List Tag → Parser CommandSpec
  | 0, _ => pfatal "out of fuel"
  | fuel + 1, tags => fun s =>
    match maybeP metaOrTagParse s with
    | (.error e, s') => (.error e, s')
    | (.ok none, _) =>
      match expectNT specCommandParse s with
      | (.ok cmd, s₂) => (.ok ⟨tags, cmd⟩, s₂)
      | (.error e, s₂) => (.error e, s₂)
    | (.ok (some mt), s₁) =>
      match mt with
      | .All => (.ok ⟨tags, .Allow .All⟩, s₁)
      | .Alias name => (.ok ⟨tags, .Allow (.Alias name)⟩, s₁)
      | .Only tag =>
        if CommandSpec.LIMIT < (tags ++ [tag]).length then
          (.error (.fatal "parse error: too many tags for command specifier"), s₁)
        else commandSpecLoop fuel (tags ++ [tag]) s₁

/-- `impl Parse for CommandSpec`. -/
def commandSpecParse : Parser CommandSpec := fun s =>
  commandSpecLoop (s.length + 1) [] s

/-- The parser for `Vec<CommandSpec>` (comma-separated). -/
def cmdSpecListParse : Parser (List CommandSpec) := manyParse commandSpecParse ','

/-- The parser for one `(hostlist, runas, commandspec)` triple:
`hostlist, "=", runas?, commandspec`. -/
def permTripleParse : Parser (SpecList Hostname × Option RunAs × List CommandSpec) := fun s =>
  match specListHostParse s with
  | (.error e, s') => (.error e, s')
  | (.ok hosts, s₁) =>
    match symExpect '=' s₁ with
    | (.error e, s₂) => (.error e, s₂)
    | (.ok _, s₂) =>
      match maybeP runAsParse s₂ with
      | (.error e, s₃) => (.error e, s₃)
      | (.ok runas, s₃) =>
        match expectNT cmdSpecListParse s₃ with
        | (.ok cmds, s₄) => (.ok (hosts, runas, cmds), s₄)
        | (.error e, s₄) => (.error e, s₄)

/-- The parser for the colon-separated list of permission triples. -/
def permissionsParse : Parser (List (SpecList Hostname × Option RunAs × List CommandSpec)) :=
  manyParse permTripleParse ':'

/-- `parse_alias` inside `get_directive`: an upper-case alias name, `=`,
and a spec list. -/
def parse_alias {α : Type} (pm : Parser (Meta α)) : Parser (AliasDef α) := fun s =>
  match expectNT upperParse s with
  | (.error e, s') => (.error e, s')
  | (.ok name, s₁) =>
    match symExpect '=' s₁ with
    | (.error e, s₂) => (.error e, s₂)
    | (.ok _, s₂) =>
      match expectNT (manyParse (qualifiedParse pm) ',') s₂ with
      | (.ok l, s₃) => (.ok ⟨name, l⟩, s₃)
      | (.error e, s₃) => (.error e, s₃)

/-- The quoted-list loop of `parse_vars`, fuelled by the input length. -/
def parseVarsLoop : Nat → List String → Parser (List String)
  | 0, _ => pfatal "out of fuel"
  | fuel + 1, acc => fun s =>
    match maybeP envVarParse s with
    | (.error e, s') => (.error e, s')
    | (.ok none, _) => (.ok acc, s)
    | (.ok (some name), s₁) =>
      match symOpt '=' s₁ with
      | (.ok true, s₂) =>
        match expectNT quotedTextParse s₂ with
        | (.error e, s₃) => (.error e, s₃)
        | (.ok _, s₃) =>
          match symExpect '"' s₃ with
          | (.error e, s₄) => (.error e, s₄)
          | (.ok _, s₄) =>
            (.error (.fatal "values in environment variables not yet supported"), s₄)
      | (_, _) => parseVarsLoop fuel (acc ++ [name]) s₁

/-- `parse_vars` inside `get_directive`: a single bare name, or a quoted
comma-free sequence of names (which must be non-empty). -/
def parse_vars : Parser (List String) := fun s =>
  match accept_if (fun c => c == '"') s with
  | (.ok _, s₁) =>
    match parseVarsLoop (s₁.length + 1) [] s₁ with
    | (.error e, s₂) => (.error e, s₂)
    | (.ok result, s₂) =>
      match symExpect '"' s₂ with
      | (.error e, s₃) => (.error e, s₃)
      | (.ok _, s₃) =>
        if result = [] then (.error (.fatal "empty string not allowed"), s₃)
        else (.ok result, s₃)
  | (.error _, _) =>
    match expectNT envVarParse s with
    | (.ok name, s₁) => (.ok [name], s₁)
    | (.error e, s₁) => (.error e, s₁)

/-- The `bool_setting` helper of `parse_default`. -/
def boolSetting (name : String) (value : Bool) : Parser Directive :=
  if is_bool_param name then pmake (.Defaults name (.Flag value))
  else pfatal (name ++ " is not a boolean setting")

/-- The `list_items` helper of `parse_default`: `=` then a list value,
hard-erroring on a non-list parameter name. -/
def listItems (mode : Mode) (name : String) : Parser Directive := fun s =>
  match symExpect '=' s with
  | (.error e, s') => (.error e, s')
  | (.ok _, s₁) =>
    if !is_list_param name then
      (.error (.fatal (name ++ " is not a list parameter")), s₁)
    else
      match parse_vars s₁ with
      | (.ok items, s₂) => (.ok (.Defaults name (.List mode items)), s₂)
      | (.error e, s₂) => (.error e, s₂)

/-- `parse_default` inside `get_directive`: the five `Defaults` shapes
`name`, `!name`, `name=value`, `name+=list`, `name-=list`. -/
def parse_default : Parser Directive := fun s =>
  match symOpt '!' s with
  | (.ok true, s₁) =>
    match expectNT envVarParse s₁ with
    | (.ok name, s₂) => boolSetting name false s₂
    | (.error e, s₂) => (.error e, s₂)
  | (_, _) =>
    match envVarParse s with
    | (.error e, s₁) => (.error e, s₁)
    | (.ok name, s₁) =>
      match symOpt '+' s₁ with
      | (.ok true, s₂) => listItems .Add name s₂
      | (_, _) =>
        match symOpt '-' s₁ with
        | (.ok true, s₂) => listItems .Del name s₂
        | (_, _) =>
          match symOpt '=' s₁ with
          | (.ok true, s₂) =>
            if is_list_param name then
              match parse_vars s₂ with
              | (.ok items, s₃) => (.ok (.Defaults name (.List .Set items)), s₃)
              | (.error e, s₃) => (.error e, s₃)
            else
              match accept_if (fun c => c == '"') s₂ with
              | (.ok _, s₃) =>
                match expectNT quotedTextParse s₃ with
                | (.error e, s₄) => (.error e, s₄)
                | (.ok text, s₄) =>
                  match symExpect '"' s₄ with
                  | (.ok _, s₅) => (.ok (.Defaults name (.Text text)), s₅)
                  | (.error e, s₅) => (.error e, s₅)
              | (.error _, _) =>
                match expectNT stringParamParse s₂ with
                | (.ok text, s₃) => (.ok (.Defaults name (.Text text)), s₃)
                | (.error e, s₃) => (.error e, s₃)
          | (_, _) => boolSetting name true s₁

/-- `get_directive` from `ast.rs`: when the first element of the
userlist is a bare name matching a directive keyword, parse the rest of
the line as that directive; otherwise soft-reject. -/
def get_directive (key : Spec UserSpecifier) : Parser Directive := fun s =>
  match key with
  | .Allow (.Only (.User (.Name keyword))) =>
    if keyword = "User_Alias" then
      match parse_alias metaUserSpecParse s with
      | (.ok d, s') => (.ok (.UserAlias d), s')
      | (.error e, s') => (.error e, s')
    else if keyword = "Host_Alias" then
      match parse_alias metaHostParse s with
      | (.ok d, s') => (.ok (.HostAlias d), s')
      | (.error e, s') => (.error e, s')
    else if keyword = "Cmnd_Alias" || keyword = "Cmd_Alias" then
      match parse_alias metaCommandParse s with
      | (.ok d, s') => (.ok (.CmndAlias d), s')
      | (.error e, s') => (.error e, s')
    else if keyword = "Runas_Alias" then
      match parse_alias metaUserSpecParse s with
      | (.ok d, s') => (.ok (.RunasAlias d), s')
      | (.error e, s') => (.error e, s')
    else if keyword = "Defaults" then parse_default s
    else (.error .reject, s)
  | _ => (.error .reject, s)

/-- The path part of an include directive: quoted, or unquoted running
to the end of the line (anything else is a hard error). -/
def includePathGet : Parser String := fun s =>
  match accept_if (fun c => c == '"') s with
  | (.ok _, s₁) =>
    match expectNT quotedTextParse s₁ with
    | (.error e, s₂) => (.error e, s₂)
    | (.ok path, s₂) =>
      match symExpect '"' s₂ with
      | (.ok _, s₃) => (.ok path, s₃)
      | (.error e, s₃) => (.error e, s₃)
  | (.error _, _) =>
    match expectNT includePathParse s with
    | (.error e, s₁) => (.error e, s₁)
    | (.ok path, s₁) =>
      if s₁.head? = some '\n' then (.ok path, s₁)
      else (.error (.fatal "use quotes around filenames or escape whitespace"), s₁)

/-- `parse_include` from `ast.rs`: the `include`/`includedir` directive
after a `#` or `@` prefix. -/
def parse_include : Parser Sudo := fun s =>
  match maybeP usernameParse s with
  | (.error e, s') => (.error e, s')
  | (.ok (some key), s₁) =>
    if key = "include" then
      match includePathGet s₁ with
      | (.ok path, s₂) => (.ok (.Include path), s₂)
      | (.error e, s₂) => (.error e, s₂)
    else if key = "includedir" then
      match includePathGet s₁ with
      | (.ok path, s₂) => (.ok (.IncludeDir path), s₂)
      | (.error e, s₂) => (.error e, s₂)
    else (.error (.fatal "unknown directive"), s₁)
  | (.ok none, s₁) => (.error (.fatal "unknown directive"), s₁)

/-- `impl Parse for Sudo`: the top-level item parser.  `@` starts an
include directive; `#` is tried first as a numeric user id, then as an
include directive, then consumed as a comment; anything else parses a
userlist and decides between a directive and a permission line. -/
def sudoParse : Parser Sudo := fun s =>
  match accept_if (fun c => c == '@') s with
  | (.ok _, s₁) => parse_include s₁
  | (.error _, _) =>
  if s.head? = some '#' then
    match identifierParse s with
    | (.ok ident, s₁) =>
      let firstUser : Spec UserSpecifier := .Allow (.Only (.User ident))
      match symOpt ',' s₁ with
      | (.ok true, s₂) =>
        match expectNT specListUserParse s₂ with
        | (.error e, s₃) => (.error e, s₃)
        | (.ok rest, s₃) =>
          match expectNT permissionsParse s₃ with
          | (.ok perms, s₄) => (.ok (.Spec ⟨firstUser :: rest, perms⟩), s₄)
          | (.error e, s₄) => (.error e, s₄)
      | (_, _) =>
        match expectNT permissionsParse s₁ with
        | (.ok perms, s₂) => (.ok (.Spec ⟨[firstUser], perms⟩), s₂)
        | (.error e, s₂) => (.error e, s₂)
    | (.error _, s₁) =>
      match parse_include s₁ with
      | (.ok r, s₂) => (.ok r, s₂)
      | (.error _, s₂) => (.ok .LineComment, s₂.dropWhile (fun c => c != '\n'))
  else
    match specListUserParse s with
    | (.error .reject, _) => (.ok .LineComment, s)
    | (.error (.fatal m), s₁) => (.error (.fatal m), s₁)
    | (.ok users, s₁) =>
      match users with
      | [] => (.error (.fatal "panic: index out of bounds"), s₁)
      | key :: _ =>
        match get_directive key s₁ with
        | (.ok d, s₂) =>
          if users.length ≠ 1 then
            (.error (.fatal "parse error: user name list cannot start with a directive keyword"), s₂)
          else (.ok (.Decl d), s₂)
        | (.error .reject, _) =>
          match expectNT permissionsParse s₁ with
          | (.ok perms, s₂) => (.ok (.Spec ⟨users, perms⟩), s₂)
          | (.error e, s₂) => (.error e, s₂)
        | (.error (.fatal m), s₂) => (.error (.fatal m), s₂)

/-! ## Settings, Judgement and policy traits (`lib/sudoers/src/policy.rs`) -/

/-- Association-list lookup (the string-keyed maps of `Sudoers.settings`). -/
def lookupStr {α : Type} : List (String × α) → String → Option α
  | [], _ => none
  | (k, v) :: rest, key => if k = key then some v else lookupStr rest key

/-- Modelled from the spec: the folded settings of a `Sudoers` policy,
flags, string values and list values. -/
structure Settings where
  flags : List String
  str_value : List (String × String)
  list : List (String × List String)
deriving DecidableEq

/-- Effective tags of an allowed Judgement: `passwd` requirement and
timeout.  Modelled from the spec (the struct lives in the sudoers crate
root, which is not among the provided sources). -/
structure Flags where
  passwd : Bool
  timeout : Option Int
deriving DecidableEq

/-- The authorization result: `None` means forbidden, `Some` means
allowed with those effective tags; the effective settings ride along. -/
structure Judgement where
  flags : Option Flags
  settings : Settings
deriving DecidableEq

/-- The three authorization outcomes of `policy.rs`. -/
inductive Authorization where
  | Required
  | Passed
  | Forbidden
deriving DecidableEq

/-- `impl Policy for Judgement { fn authorization(&self) }` from
`policy.rs`: `Some` with `!passwd` is `Passed`, `Some` with `passwd` is
`Required`, `None` is `Forbidden`. -/
def Judgement.authorization (j : Judgement) : Authorization :=
  match j.flags with
  | some tag => if !tag.passwd then .Passed else .Required
  | none => .Forbidden

/-- Modelled from the spec: the resolved `Sudoers` (the struct lives in
the sudoers crate root, not among the provided sources) holds the four
alias namespaces, the ordered permission rules and the folded settings. -/
structure Sudoers where
  user_aliases : List (String × SpecList UserSpecifier)
  host_aliases : List (String × SpecList Hostname)
  cmnd_aliases : List (String × SpecList Command)
  runas_aliases : List (String × SpecList UserSpecifier)
  rules : List PermissionSpec
  settings : Settings
deriving DecidableEq

/-- `impl PreJudgementPolicy for Sudoers { fn secure_path(&self) }` from
`policy.rs`.  The Rust body indexes `settings.str_value["secure_path"]`,
which panics when the key is absent; the panic is modelled as the outer
`none`.  When the key is present the function returns `none` for an
empty stored value and the stored value otherwise (inner option). -/
def secure_path (s : Sudoers) : Option (Option String) :=
  match lookupStr s.settings.str_value "secure_path" with
  | none => none
  | some path => some (if path = "" then none else some path)

/-! ## The environment filter

`get_target_environment` of `lib/sudo-common/src/env.rs` is not among
the provided sources (only its test, `env_tests.rs`, is); the filter is
modelled from the specification, section 4.6. -/

/-- An ordered mapping of environment variable names to values. -/
abbrev Environment := List (String × String)

/-- A user record as the environment filter consumes it. -/
structure EnvUser where
  uid : Nat
  gid : Nat
  name : String
  home : String
  shell : String
deriving DecidableEq

/-- The request context consumed by the environment filter. -/
structure Context where
  hostname : String
  commandPath : String
  currentUser : EnvUser
  targetUser : EnvUser
  preserveEnv : Bool
  preserveEnvList : List String
  setHome : Bool
deriving DecidableEq

/-- Set a variable, replacing an existing binding in place and appending
otherwise (deterministic in the input order). -/
def setVar : Environment → String → String → Environment
  | [], k, v => [(k, v)]
  | (k', v') :: rest, k, v =>
    if k' = k then (k, v) :: rest else (k', v') :: setVar rest k v

/-- Look a variable up. -/
def getVar (e : Environment) (k : String) : Option String := lookupStr e k

/-- Whether a name starts with `LC_`. -/
def isLCName (n : String) : Bool := n.toList.take 3 = "LC_".toList

/-- Modelled from the spec: the names the filter always imports from the
source environment (rule 2 of section 4.6). -/
def alwaysImported (n : String) : Bool :=
  n == "TERM" || n == "PATH" || n == "DISPLAY" || n == "COLORS" ||
  n == "HOSTNAME" || n == "LS_COLORS" || n == "LANG" || n == "LANGUAGE" ||
  isLCName n

/-- Modelled from the spec: the syntactic check applied to `env_check`
values — no newlines, no `%`, no `/` (rule 3 of section 4.6). -/
def checkedValueOk (v : String) : Bool :=
  v.toList.all (fun c => !(c == '\n' || c == '%' || c == '/'))

/-- The `env_keep` list of the settings (empty when unset). -/
def envKeepOf (st : Settings) : List String := (lookupStr st.list "env_keep").getD []

/-- The `env_check` list of the settings (empty when unset). -/
def envCheckOf (st : Settings) : List String := (lookupStr st.list "env_check").getD []

/-- Modelled from the spec: `build_environment` /
`get_target_environment` (section 4.6).  Rules in order: start empty;
always-import the fixed names (with `PATH` replaced when `secure_path`
is set) and `env_keep`; import `env_check` names whose value passes the
syntactic check; with `preserve_env` import everything, with a
`preserve_env_list` import those names; then force `HOME` (unless
`set_home` is unset and `HOME` was already imported), `SHELL`, `USER`,
`LOGNAME`, `MAIL` and the four `SUDO_*` variables.  Rule 5 is read so
that the spec's scenarios 5 and 6 (section 8) both hold: without
`preserve_env` the target user's `HOME` wins, with it the imported
`HOME` survives. -/
def get_target_environment (source : Environment) (ctx : Context) (st : Settings) : Environment :=
  let securePathVal : Option String :=
    match lookupStr st.str_value "secure_path" with
    | some p => if p = "" then none else some p
    | none => none
  let step2 : Environment := source.foldl
    (fun acc kv =>
      if alwaysImported kv.1 || (envKeepOf st).contains kv.1 then
        setVar acc kv.1 (if kv.1 = "PATH" then securePathVal.getD kv.2 else kv.2)
      else acc) []
  let step3 : Environment := source.foldl
    (fun acc kv =>
      if (envCheckOf st).contains kv.1 && checkedValueOk kv.2 then
        setVar acc kv.1 kv.2
      else acc) step2
  let step4 : Environment :=
    if ctx.preserveEnv then
      source.foldl (fun acc kv => setVar acc kv.1 kv.2) step3
    else
      source.foldl
        (fun acc kv =>
          if ctx.preserveEnvList.contains kv.1 then setVar acc kv.1 kv.2 else acc)
        step3
  let step5 : Environment :=
    if !ctx.setHome && (getVar step4 "HOME").isSome then step4
    else setVar step4 "HOME" ctx.targetUser.home
  let step6 := setVar step5 "SHELL" ctx.targetUser.shell
  let step7a := setVar step6 "USER" ctx.targetUser.name
  let step7b := setVar step7a "LOGNAME" ctx.targetUser.name
  let step8 := setVar step7b "MAIL" ("/var/mail/" ++ ctx.targetUser.name)
  let step9a := setVar step8 "SUDO_USER" ctx.currentUser.name
  let step9b := setVar step9a "SUDO_UID" (toString ctx.currentUser.uid)
  let step9c := setVar step9b "SUDO_GID" (toString ctx.currentUser.gid)
  setVar step9c "SUDO_COMMAND" ctx.commandPath

/-- The source environment of `env_tests.rs` (the `> env` block of its
`TESTS` constant), in file order. -/
def testSourceEnv : Environment :=
  [("FOO", "BAR"),
   ("HOME", "/home/test"),
   ("HOSTNAME", "test-ubuntu"),
   ("LANG", "en_US.UTF-8"),
   ("LANGUAGE", "en_US.UTF-8"),
   ("LC_ALL", "en_US.UTF-8"),
   ("LS_COLORS", "cd=40;33;01:*.jpg=01;35:*.mp3=00;36:"),
   ("PATH", "/usr/local/sbin:/usr/local/bin:/usr/sbin:/usr/bin:/sbin:/bin"),
   ("PWD", "/home/test"),
   ("SHLVL", "0"),
   ("TERM", "xterm"),
   ("_", "/usr/bin/sudo")]

/-- The context `env_tests.rs` builds for the plain `sudo env` case:
invoker `test` (uid / gid 1000), target `root`, no preserve options. -/
def testContext : Context :=
  { hostname := "test-ubuntu"
    commandPath := "/usr/bin/env"
    currentUser := ⟨1000, 1000, "test", "/home/test", "/bin/sh"⟩
    targetUser := ⟨0, 0, "root", "/root", "/bin/bash"⟩
    preserveEnv := false
    preserveEnvList := []
    setHome := false }

/-- Settings with nothing configured. -/
def emptySettings : Settings := ⟨[], [], []⟩

/-- The target environment the filter produces for the `sudo env` test
case. -/
def testTargetEnv : Environment :=
  get_target_environment testSourceEnv testContext emptySettings

/-! ## Theorems -/

/-- C2: for every Judgement, `flags = None` means the request is
forbidden, and `flags = Some f` means it is allowed, with authorization
`Required` when `f.passwd` is true and `Passed` when it is false. -/
theorem judgement_authorization (j : Judgement) :
    (j.flags = none → j.authorization = .Forbidden) ∧
    (∀ f, j.flags = some f →
      j.authorization = (if f.passwd then .Required else .Passed)) := by
  constructor
  · intro h
    simp [Judgement.authorization, h]
  · intro f h
    cases hp : f.passwd <;> simp [Judgement.authorization, h, hp]

/-- Witness for C2 at three concrete judgements. -/
theorem judgement_authorization_w :
    (Judgement.mk none emptySettings).authorization = .Forbidden ∧
    (Judgement.mk (some ⟨true, none⟩) emptySettings).authorization = .Required ∧
    (Judgement.mk (some ⟨false, none⟩) emptySettings).authorization = .Passed := by
  refine ⟨(judgement_authorization _).1 rfl, ?_, ?_⟩
  · have h := (judgement_authorization (Judgement.mk (some ⟨true, none⟩) emptySettings)).2
      ⟨true, none⟩ rfl
    simpa using h
  · have h := (judgement_authorization (Judgement.mk (some ⟨false, none⟩) emptySettings)).2
      ⟨false, none⟩ rfl
    simpa using h

/-- C4 counterexample: `is_list_param` does not return `true` for every
setting name — it returns `false` on `"secure_path"`. -/
theorem is_list_param_counterexample : is_list_param "secure_path" = false := by
  rfl

/-- C4 (amended): `is_bool_param` returns `true` for every name, while
`is_list_param` returns `true` for every name except `"secure_path"`
and `"lecture_file"`, on which it returns `false`. -/
theorem default_param_predicates :
    (∀ n, is_bool_param n = true) ∧
    (∀ n, n ≠ "secure_path" → n ≠ "lecture_file" → is_list_param n = true) ∧
    is_list_param "secure_path" = false ∧
    is_list_param "lecture_file" = false := by
  refine ⟨fun n => rfl, fun n h1 h2 => ?_, rfl, rfl⟩
  simp [is_list_param, h1, h2]

/-- Witness for C4 (amended) at the concrete name `env_keep`. -/
theorem default_param_predicates_w :
    is_bool_param "env_keep" = true ∧ is_list_param "env_keep" = true := by
  exact ⟨default_param_predicates.1 "env_keep",
         default_param_predicates.2.1 "env_keep" (by decide) (by decide)⟩

/-- C7: any user-specifier input beginning with `+` (a netgroup) makes
the parser raise the hard unsupported-feature error; no `UserSpecifier`
value is produced. -/
theorem userSpecifier_netgroup_fatal (s : List Char) :
    userSpecifierParse ('+' :: s) = (.error (.fatal "netgroups are not supported yet"), s) := by
  rfl

/-- C8: on the test source environment (`HOME=/home/test`, `PATH`,
`FOO=BAR`, …) with target user root and `preserve_env` not set, the
filter produces `HOME=/root`, `USER=root`, `LOGNAME=root`,
`SUDO_USER=test`, and drops `FOO`. -/
theorem env_filter_scenario :
    getVar testTargetEnv "HOME" = some "/root" ∧
    getVar testTargetEnv "USER" = some "root" ∧
    getVar testTargetEnv "LOGNAME" = some "root" ∧
    getVar testTargetEnv "SUDO_USER" = some "test" ∧
    getVar testTargetEnv "FOO" = none := by
  refine ⟨rfl, rfl, rfl, rfl, rfl⟩

/-- A Sudoers value holding only string settings, for concrete checks. -/
def sudoersWith (sv : List (String × String)) : Sudoers :=
  ⟨[], [], [], [], [], ⟨[], sv, []⟩⟩

/-- C10: when the settings string map binds `secure_path`, the function
returns `none` exactly for the empty stored value and the stored value
otherwise; when the key is absent the lookup panics (outer `none`). -/
theorem secure_path_characterization :
    (∀ (s : Sudoers) (v : String),
        lookupStr s.settings.str_value "secure_path" = some v →
        secure_path s = some (if v = "" then none else some v)) ∧
    (∀ s : Sudoers,
        lookupStr s.settings.str_value "secure_path" = none →
        secure_path s = none) := by
  constructor
  · intro s v h
    simp [secure_path, h]
  · intro s h
    simp [secure_path, h]

/-- Witness for C10 at three concrete Sudoers values. -/
theorem secure_path_characterization_w :
    secure_path (sudoersWith [("secure_path", "/usr/sbin")]) = some (some "/usr/sbin") ∧
    secure_path (sudoersWith [("secure_path", "")]) = some none ∧
    secure_path (sudoersWith []) = none := by
  refine ⟨?_, ?_, secure_path_characterization.2 _ rfl⟩
  · have h := secure_path_characterization.1 (sudoersWith [("secure_path", "/usr/sbin")])
      "/usr/sbin" rfl
    simpa using h
  · have h := secure_path_characterization.1 (sudoersWith [("secure_path", "")]) "" rfl
    simpa using h

/-- Streams that start with neither a `!` mark nor a blank (or are
empty); on such streams the bang-consuming loop stops immediately. -/
def noLeadBangWs (s : List Char) : Bool :=
  match s with
  | [] => true
  | c :: _ => !(c == '!' || c == ' ' || c == '\t')

/-- `skipWs` is the identity on streams without a leading blank. -/
theorem skipWs_eq_of_noLead (s : List Char) (h : noLeadBangWs s = true) :
    skipWs s = s := by
  cases s with
  | nil => rfl
  | cons c rest =>
    simp only [noLeadBangWs, Bool.not_eq_true', Bool.or_eq_false_iff] at h
    simp only [skipWs, isBlank, h.1.2, h.2, Bool.or_self, Bool.false_eq_true, if_false]

/-- `skipWs` is the identity on a run of `!` marks followed by a
bang/blank-free stream. -/
theorem skipWs_replicate_bang (k : Nat) (s : List Char) (h : noLeadBangWs s = true) :
    skipWs (List.replicate k '!' ++ s) = List.replicate k '!' ++ s := by
  cases k with
  | zero => simpa using skipWs_eq_of_noLead s h
  | succ k => rfl

/-- The bang-consuming loop of `Qualified::parse` flips the parity once
per `!` mark and stops at the first character that is not a `!`. -/
theorem bangLoop_replicate (k : Nat) (neg : Bool) (ws : Bool) (s : List Char)
    (h : noLeadBangWs s = true) :
    bangLoop neg ws (List.replicate k '!' ++ s) =
      (if k % 2 = 1 then !neg else neg, s) := by
  induction k generalizing neg ws with
  | zero =>
    cases s with
    | nil => simp [bangLoop]
    | cons c rest =>
      simp only [noLeadBangWs, Bool.not_eq_true', Bool.or_eq_false_iff] at h
      have hc : ¬(c = '!') := by
        intro hc
        subst hc
        simp at h
      have hb : isBlank c = false := by
        simp [isBlank, h.1.2, h.2]
      simp [bangLoop, hc, hb]
  | succ k ih =>
    have step : bangLoop neg ws (List.replicate (k + 1) '!' ++ s) =
        bangLoop (!neg) true (List.replicate k '!' ++ s) := by
      simp [List.replicate_succ, bangLoop, isBlank]
    rw [step, ih (!neg) true]
    rcases Nat.mod_two_eq_zero_or_one k with h2 | h2
    · have h3 : (k + 1) % 2 = 1 := by omega
      simp [h2, h3]
    · have h3 : (k + 1) % 2 = 0 := by omega
      simp [h2, h3]

/-- C3: parsing a Qualified item consumes an arbitrary run of `!`
prefixes and takes the parity — an odd number yields `Forbid`, an even
number yields `Allow` — so parsing `!!x` yields the same Qualified value
as parsing `x`. -/
theorem qualifiedParse_bang_parity {α : Type} (p : Parser α) (n : Nat)
    (s s₁ : List Char) (a : α)
    (hp : p s = (.ok a, s₁)) (hs : noLeadBangWs s = true) :
    qualifiedParse p (List.replicate n '!' ++ s) =
      (.ok (if n % 2 = 1 then .Forbid a else .Allow a), s₁) ∧
    qualifiedParse p ('!' :: '!' :: s) = qualifiedParse p s := by
  have main : ∀ m : Nat, qualifiedParse p (List.replicate m '!' ++ s) =
      (.ok (if m % 2 = 1 then .Forbid a else .Allow a), s₁) := by
    intro m
    cases m with
    | zero =>
      simp only [List.replicate, List.nil_append]
      cases hcase : s with
      | nil =>
        rw [hcase] at hp
        simp [qualifiedParse, symOpt, hp]
      | cons c rest =>
        rw [hcase] at hp hs
        simp only [noLeadBangWs, Bool.not_eq_true', Bool.or_eq_false_iff] at hs
        have hc : ¬(c = '!') := by
          intro h
          subst h
          simp at hs
        simp [qualifiedParse, symOpt, hc, hp]
    | succ m =>
      have h1 : qualifiedParse p (List.replicate (m + 1) '!' ++ s) =
          (match expectNT p (bangLoop true false (skipWs (List.replicate m '!' ++ s))).2 with
           | (.ok a, s₃) =>
             (.ok (if (bangLoop true false (skipWs (List.replicate m '!' ++ s))).1
                   then .Forbid a else .Allow a), s₃)
           | (.error e, s₃) => (.error e, s₃)) := by
        rfl
      rw [h1, skipWs_replicate_bang m s hs, bangLoop_replicate m true false s hs]
      have hexp : expectNT p s = (.ok a, s₁) := by
        simp [expectNT, hp]
      rcases Nat.mod_two_eq_zero_or_one m with h2 | h2
      · have h3 : (m + 1) % 2 = 1 := by omega
        simp [h2, h3, hexp]
      · have h3 : (m + 1) % 2 = 0 := by omega
        simp [h2, h3, hexp]
  refine ⟨main n, ?_⟩
  have h2 := main 2
  have h0 := main 0
  simp only [List.replicate, List.nil_append] at h2 h0
  rw [show ('!' :: '!' :: s) = List.replicate 2 '!' ++ s from rfl]
  simp only [List.replicate]
  rw [h2, h0]

/-- Witness for C3 at three `!` marks before a digit token. -/
theorem qualifiedParse_bang_parity_w :
    qualifiedParse digitsParse (List.replicate 3 '!' ++ "42".toList) =
      (.ok (.Forbid 42), []) ∧
    qualifiedParse digitsParse ('!' :: '!' :: "42".toList) =
      qualifiedParse digitsParse "42".toList := by
  have h := qualifiedParse_bang_parity digitsParse 3 "42".toList [] 42 rfl rfl
  exact ⟨by simpa using h.1, h.2⟩

/-- Whether the first character of a stream (if any) fails a predicate;
token runs stop exactly at such a character. -/
def headFails (p : Char → Bool) : List Char → Bool
  | [] => true
  | c :: _ => !(p c)

/-- A run of characters satisfying `p` followed by a stream whose head
fails `p` splits `takeWhile` / `dropWhile` exactly at the boundary. -/
theorem takeWhile_dropWhile_append (p : Char → Bool) (l r : List Char)
    (hl : ∀ c ∈ l, p c = true) (hr : headFails p r = true) :
    (l ++ r).takeWhile p = l ∧ (l ++ r).dropWhile p = r := by
  induction l with
  | nil =>
    cases r with
    | nil => simp
    | cons c rest =>
      simp only [headFails, Bool.not_eq_true'] at hr
      simp [List.takeWhile, List.dropWhile, hr]
  | cons c l ih =>
    have hc : p c = true := hl c (by simp)
    have hl' : ∀ x ∈ l, p x = true := fun x hx => hl x (by simp [hx])
    obtain ⟨h1, h2⟩ := ih hl'
    simp [List.takeWhile, List.dropWhile, hc, h1, h2]

/-- A token parse on a well-formed token followed by a breaking
character consumes exactly the token (plus trailing whitespace). -/
theorem tokenParse_exact (a1 aR : Char → Bool) (c : Char) (l r : List Char)
    (hc : a1 c = true) (hl : ∀ x ∈ l, aR x = true) (hr : headFails aR r = true) :
    tokenParse a1 aR (c :: l ++ r) = (.ok (c :: l), skipWs r) := by
  obtain ⟨h1, h2⟩ := takeWhile_dropWhile_append aR l r hl hr
  simp [tokenParse, hc, h1, h2]

/-- `skipWs` is the identity on streams whose head is not blank. -/
theorem skipWs_eq_of_headFails (s : List Char) (h : headFails isBlank s = true) :
    skipWs s = s := by
  cases s with
  | nil => rfl
  | cons c rest =>
    simp only [headFails, Bool.not_eq_true'] at h
    simp [skipWs, h]

/-- The `Decimal` token on a digit run followed by a non-digit. -/
theorem decimalParse_digits (d : Char) (ds rest : List Char)
    (hd : d.isDigit = true) (hds : ∀ c ∈ ds, c.isDigit = true)
    (hrest : headFails Char.isDigit rest = true) :
    decimalParse (d :: ds ++ rest) =
      (.ok (Int.ofNat (natOfDigits (d :: ds))), skipWs rest) := by
  simp only [decimalParse]
  rw [tokenParse_exact Char.isDigit Char.isDigit d ds rest hd hds hrest]

/-- Surface encoding of one tag of a command specifier: `NOPASSWD:` or
`TIMEOUT=` followed by a digit string. -/
inductive TagTok where
  | nopasswd
  | timeout (ds : List Char)
deriving DecidableEq

/-- Well-formedness of a surface tag: a timeout needs a non-empty digit
string. -/
def TagTok.wfb : TagTok → Bool
  | .nopasswd => true
  | .timeout ds => !ds.isEmpty && ds.all Char.isDigit

/-- The characters a surface tag contributes to the input line
(keyword, separator, and one trailing blank). -/
def TagTok.chars : TagTok → List Char
  | .nopasswd => "NOPASSWD: ".toList
  | .timeout ds => "TIMEOUT=".toList ++ ds ++ [' ']

/-- The `Tag` value a surface tag parses to. -/
def TagTok.tag : TagTok → Tag
  | .nopasswd => .NoPasswd
  | .timeout ds => .Timeout (Int.ofNat (natOfDigits ds))

/-- The characters of a tag prefix. -/
def tagsChars (ts : List TagTok) : List Char := (ts.map TagTok.chars).flatten

/-- A digit is not blank. -/
theorem digit_not_blank (d : Char) (hd : d.isDigit = true) : isBlank d = false := by
  have h1 : ¬(d = ' ') := by
    intro hEq
    rw [hEq] at hd
    exact absurd hd (by decide)
  have h2 : ¬(d = '\t') := by
    intro hEq
    rw [hEq] at hd
    exact absurd hd (by decide)
  simp [isBlank, h1, h2]

/-- `MetaOrTag` on `TIMEOUT=` reduces to the decimal parse of the
remainder. -/
theorem metaOrTagParse_timeout_shape (X : List Char) :
    metaOrTagParse ("TIMEOUT=".toList ++ X) =
      (match expectNT decimalParse (skipWs X) with
       | (.ok t, s₃) => (.ok (.Only (.Timeout t)), s₃)
       | (.error e, s₃) => (.error e, s₃)) := rfl

/-- Parsing one well-formed surface tag consumes exactly its characters
and yields its `Tag` (wrapped in `Only`). -/
theorem metaOrTagParse_tagtok (t : TagTok) (h : t.wfb = true) (rest : List Char) :
    metaOrTagParse (t.chars ++ rest) = (.ok (.Only t.tag), skipWs rest) := by
  cases t with
  | nopasswd => rfl
  | timeout ds =>
    simp only [TagTok.wfb, Bool.and_eq_true, Bool.not_eq_true'] at h
    obtain ⟨hne, hdig⟩ := h
    cases ds with
    | nil => simp [List.isEmpty] at hne
    | cons d ds' =>
      have hd : d.isDigit = true := by
        have := List.all_eq_true.mp hdig d (by simp)
        simpa using this
      have hds' : ∀ c ∈ ds', c.isDigit = true := by
        intro c hc
        have := List.all_eq_true.mp hdig c (by simp [hc])
        simpa using this
      have hshape : TagTok.chars (.timeout (d :: ds')) ++ rest =
          "TIMEOUT=".toList ++ ((d :: ds') ++ (' ' :: rest)) := by
        simp [TagTok.chars]
      rw [hshape, metaOrTagParse_timeout_shape]
      have hblank : skipWs ((d :: ds') ++ (' ' :: rest)) = (d :: ds') ++ (' ' :: rest) := by
        apply skipWs_eq_of_headFails
        simp [headFails, digit_not_blank d hd]
      rw [hblank]
      have hdec := decimalParse_digits d ds' (' ' :: rest) hd hds' (by rfl)
      have hsp : skipWs (' ' :: rest) = skipWs rest := by rfl
      simp only [expectNT, hdec, hsp, TagTok.tag]

/-- `skipWs` is the identity in front of a tag prefix (tag keywords
start with an upper-case letter) or, for an empty prefix, in front of a
blank-free terminator. -/
theorem skipWs_tagsChars (ts : List TagTok) (rest : List Char)
    (h : headFails isBlank rest = true) :
    skipWs (tagsChars ts ++ rest) = tagsChars ts ++ rest := by
  cases ts with
  | nil => simpa [tagsChars] using skipWs_eq_of_headFails rest h
  | cons t ts =>
    cases t with
    | nopasswd => rfl
    | timeout ds => rfl

/-- A tag prefix has at least one character per tag. -/
theorem tagsChars_length (ts : List TagTok) : ts.length ≤ (tagsChars ts).length := by
  induction ts with
  | nil => simp [tagsChars]
  | cons t ts ih =>
    have h1 : 1 ≤ t.chars.length := by
      cases t <;> simp [TagTok.chars]
    have h2 : tagsChars (t :: ts) = t.chars ++ tagsChars ts := by
      simp [tagsChars]
    rw [h2]
    simp only [List.length_append, List.length_cons]
    omega

/-- The tag loop of `CommandSpec::parse` consumes a well-formed tag
prefix whole, accumulating its tags, provided the limit is not
exceeded. -/
theorem commandSpecLoop_tagsChars (ts : List TagTok) :
    ∀ (fuel : Nat) (tags : List Tag) (rest : List Char),
    (∀ t ∈ ts, t.wfb = true) →
    tags.length + ts.length ≤ CommandSpec.LIMIT →
    ts.length < fuel →
    headFails isBlank rest = true →
    commandSpecLoop fuel tags (tagsChars ts ++ rest) =
      commandSpecLoop (fuel - ts.length) (tags ++ ts.map TagTok.tag) rest := by
  induction ts with
  | nil =>
    intro fuel tags rest _ _ _ _
    simp [tagsChars]
  | cons t ts ih =>
    intro fuel tags rest hwf hlen hfuel hrest
    obtain ⟨f, rfl⟩ : ∃ f, fuel = f + 1 := ⟨fuel - 1, by omega⟩
    have hstep : tagsChars (t :: ts) ++ rest = t.chars ++ (tagsChars ts ++ rest) := by
      simp [tagsChars]
    rw [hstep]
    have hmt := metaOrTagParse_tagtok t (hwf t (by simp)) (tagsChars ts ++ rest)
    have hlim : ¬(CommandSpec.LIMIT < (tags ++ [t.tag]).length) := by
      simp only [List.length_append, List.length_cons, List.length_nil, List.length_cons] at hlen ⊢
      omega
    rw [commandSpecLoop]
    simp only [maybeP, hmt, hlim, if_false]
    rw [skipWs_tagsChars ts rest hrest]
    rw [ih f (tags ++ [t.tag]) rest (fun x hx => hwf x (by simp [hx]))
        (by simp only [List.length_append, List.length_cons, List.length_nil] at hlen ⊢; omega)
        (by simp only [List.length_cons] at hfuel; omega) hrest]
    have harith : f + 1 - (t :: ts).length = f - ts.length := by
      simp only [List.length_cons]
      omega
    have happ : tags ++ [t.tag] ++ ts.map TagTok.tag = tags ++ (t :: ts).map TagTok.tag := by
      simp
    rw [harith, happ]

/-- The tag loop at the terminator `ALL`. -/
theorem commandSpecLoop_all (fuel : Nat) (tags : List Tag) (h : 0 < fuel) :
    commandSpecLoop fuel tags "ALL".toList = (.ok ⟨tags, .Allow .All⟩, []) := by
  obtain ⟨f, rfl⟩ : ∃ f, fuel = f + 1 := ⟨fuel - 1, by omega⟩
  rfl

/-- The `Upper` token on an input that is exactly one upper-case
keyword identifier. -/
theorem upperParse_exact (w : String) (hw : isUpperIdentChars w.toList = true) :
    upperParse w.toList = (.ok w, []) := by
  obtain ⟨c, l, hcl⟩ : ∃ c l, w.toList = c :: l := by
    cases hlist : w.toList with
    | nil => rw [hlist] at hw; simp [isUpperIdentChars] at hw
    | cons c l => exact ⟨c, l, rfl⟩
  rw [hcl] at hw
  simp only [isUpperIdentChars, Bool.and_eq_true] at hw
  have hl : ∀ x ∈ l, upperCont x = true := List.all_eq_true.mp hw.2
  have hmk : String.mk (c :: l) = w := by
    rw [← hcl]
    cases w
    rfl
  rw [hcl]
  simp only [upperParse]
  rw [show (c :: l) = (c :: l ++ ([] : List Char)) by simp,
      tokenParse_exact Char.isUpper upperCont c l [] hw.1 hl rfl]
  simp [hmk, skipWs]

/-- The tag loop at an alias terminator: any other upper-case keyword
ends the spec as the command alias. -/
theorem commandSpecLoop_alias (fuel : Nat) (tags : List Tag) (w : String)
    (h : 0 < fuel) (hw : isUpperIdentChars w.toList = true)
    (h1 : w ≠ "NOPASSWD") (h2 : w ≠ "TIMEOUT") (h3 : w ≠ "ALL") :
    commandSpecLoop fuel tags w.toList = (.ok ⟨tags, .Allow (.Alias w)⟩, []) := by
  obtain ⟨f, rfl⟩ : ∃ f, fuel = f + 1 := ⟨fuel - 1, by omega⟩
  have hmt : metaOrTagParse w.toList = (.ok (.Alias w), []) := by
    simp only [metaOrTagParse, upperParse_exact w hw]
    rw [if_neg h1, if_neg h2, if_neg h3]
  rw [commandSpecLoop]
  simp only [maybeP, hmt]

/-- An upper-case keyword identifier does not start with a blank. -/
theorem upperIdent_headFails (l : List Char) (hw : isUpperIdentChars l = true) :
    headFails isBlank l = true := by
  cases l with
  | nil => rfl
  | cons c l =>
    simp only [isUpperIdentChars, Bool.and_eq_true] at hw
    have hc := hw.1
    have h1 : ¬(c = ' ') := by
      intro hEq
      rw [hEq] at hc
      exact absurd hc (by decide)
    have h2 : ¬(c = '\t') := by
      intro hEq
      rw [hEq] at hc
      exact absurd hc (by decide)
    simp [headFails, isBlank, h1, h2]

/-- C1 (amended): the `CommandSpec` parser consumes a prefix of
upper-case keywords in which `NOPASSWD:` attaches the `NoPasswd` tag and
`TIMEOUT=N` attaches `Timeout(N)`, while `ALL` or any other upper-case
identifier (including `NOEXEC`) terminates the prefix and is taken as
the command wildcard or command alias itself; the resulting
`CommandSpec` pairs the collected tags with that command. -/
theorem commandSpec_tag_prefix (ts : List TagTok) (w : String)
    (hwf : ∀ t ∈ ts, t.wfb = true) (hlen : ts.length ≤ CommandSpec.LIMIT)
    (hw : isUpperIdentChars w.toList = true)
    (h1 : w ≠ "NOPASSWD") (h2 : w ≠ "TIMEOUT") (h3 : w ≠ "ALL") :
    commandSpecParse (tagsChars ts ++ "ALL".toList) =
      (.ok ⟨ts.map TagTok.tag, .Allow .All⟩, []) ∧
    commandSpecParse (tagsChars ts ++ w.toList) =
      (.ok ⟨ts.map TagTok.tag, .Allow (.Alias w)⟩, []) := by
  constructor
  · have hfuel : ts.length < (tagsChars ts ++ "ALL".toList).length + 1 := by
      have := tagsChars_length ts
      simp only [List.length_append]
      omega
    rw [commandSpecParse,
        commandSpecLoop_tagsChars ts _ [] "ALL".toList hwf (by simpa using hlen) hfuel rfl]
    rw [commandSpecLoop_all _ _ (by omega)]
    simp
  · have hfuel : ts.length < (tagsChars ts ++ w.toList).length + 1 := by
      have := tagsChars_length ts
      simp only [List.length_append]
      omega
    rw [commandSpecParse,
        commandSpecLoop_tagsChars ts _ [] w.toList hwf (by simpa using hlen) hfuel
          (upperIdent_headFails _ hw)]
    rw [commandSpecLoop_alias _ _ w (by omega) hw h1 h2 h3]
    simp

/-- Witness for C1 (amended) at the concrete prefix
`NOPASSWD: TIMEOUT=30` with both terminators. -/
theorem commandSpec_tag_prefix_w :
    commandSpecParse (tagsChars [.nopasswd, .timeout ['3', '0']] ++ "ALL".toList) =
      (.ok ⟨[.NoPasswd, .Timeout 30], .Allow .All⟩, []) ∧
    commandSpecParse (tagsChars [.nopasswd, .timeout ['3', '0']] ++ "FOOCMD".toList) =
      (.ok ⟨[.NoPasswd, .Timeout 30], .Allow (.Alias "FOOCMD")⟩, []) := by
  have h := commandSpec_tag_prefix [.nopasswd, .timeout ['3', '0']] "FOOCMD"
    (by decide) (by decide) (by decide) (by decide) (by decide) (by decide)
  constructor
  · have h1 := h.1
    simpa using h1
  · have h2 := h.2
    simpa using h2

/-- The tag loop only ever returns a `CommandSpec` whose tag count is
within the limit (the running count is checked after every push). -/
theorem commandSpecLoop_ok_le (fuel : Nat) :
    ∀ (tags : List Tag) (s : List Char) (cs : CommandSpec) (r : List Char),
    commandSpecLoop fuel tags s = (.ok cs, r) →
    tags.length ≤ CommandSpec.LIMIT →
    cs.tags.length ≤ CommandSpec.LIMIT := by
  induction fuel with
  | zero =>
    intro tags s cs r h _
    simp [commandSpecLoop, pfatal] at h
  | succ fuel ih =>
    intro tags s cs r h htags
    simp only [commandSpecLoop] at h
    split at h
    · simp at h
    · split at h
      · cases h
        simpa using htags
      · simp at h
    · rename_i mt s₁ heq
      split at h
      · simp only [Prod.mk.injEq, Except.ok.injEq] at h
        rw [← h.1]
        simpa using htags
      · simp only [Prod.mk.injEq, Except.ok.injEq] at h
        rw [← h.1]
        simpa using htags
      · rename_i mt0 tag
        split at h
        · simp at h
        · rename_i hlim
          simp only [List.length_append, List.length_cons, List.length_nil,
            Nat.not_lt] at hlim
          exact ih (tags ++ [tag]) s₁ cs r h
            (by simp only [List.length_append, List.length_cons, List.length_nil]; omega)

/-- With more than `LIMIT` tags in the prefix, the loop hard-errors as
soon as the count exceeds the limit, whatever follows. -/
theorem commandSpecLoop_overflow (ts : List TagTok) :
    ∀ (fuel : Nat) (tags : List Tag) (rest : List Char),
    (∀ t ∈ ts, t.wfb = true) →
    tags.length ≤ CommandSpec.LIMIT →
    CommandSpec.LIMIT < tags.length + ts.length →
    ts.length ≤ fuel →
    (commandSpecLoop fuel tags (tagsChars ts ++ rest)).1 =
      .error (.fatal "parse error: too many tags for command specifier") := by
  induction ts with
  | nil =>
    intro fuel tags rest _ htags hover _
    simp only [List.length_nil, Nat.add_zero] at hover
    omega
  | cons t ts ih =>
    intro fuel tags rest hwf htags hover hfuel
    obtain ⟨f, rfl⟩ : ∃ f, fuel = f + 1 := ⟨fuel - 1, by simp at hfuel; omega⟩
    have hstep : tagsChars (t :: ts) ++ rest = t.chars ++ (tagsChars ts ++ rest) := by
      simp [tagsChars]
    rw [hstep]
    have hmt := metaOrTagParse_tagtok t (hwf t (by simp)) (tagsChars ts ++ rest)
    rw [commandSpecLoop]
    simp only [maybeP, hmt]
    split
    · rfl
    · rename_i hlim
      simp only [List.length_append, List.length_cons, List.length_nil, Nat.not_lt] at hlim
      cases hts : ts with
      | nil =>
        exfalso
        rw [hts] at hover
        simp only [List.length_cons, List.length_nil] at hover
        omega
      | cons t' ts' =>
        subst hts
        have hskip : skipWs (tagsChars (t' :: ts') ++ rest) = tagsChars (t' :: ts') ++ rest := by
          cases t' with
          | nopasswd => rfl
          | timeout ds => rfl
        rw [hskip]
        apply ih f (tags ++ [t.tag]) rest (fun x hx => hwf x (by simp [hx]))
        · simp only [List.length_append, List.length_cons, List.length_nil]
          omega
        · simp only [List.length_append, List.length_cons, List.length_nil]
          simp only [List.length_cons] at hover
          omega
        · simp only [List.length_cons] at hfuel ⊢
          omega

/-- C9: every successfully parsed `CommandSpec` carries at most
`CommandSpec::LIMIT` tags, and a tag prefix longer than the limit makes
the parser raise the hard error `too many tags for command specifier`
as soon as the count exceeds the limit. -/
theorem commandSpec_tag_limit :
    (∀ (s : List Char) (cs : CommandSpec) (r : List Char),
        commandSpecParse s = (.ok cs, r) → cs.tags.length ≤ CommandSpec.LIMIT) ∧
    (∀ (ts : List TagTok) (rest : List Char),
        (∀ t ∈ ts, t.wfb = true) → CommandSpec.LIMIT < ts.length →
        (commandSpecParse (tagsChars ts ++ rest)).1 =
          .error (.fatal "parse error: too many tags for command specifier")) := by
  constructor
  · intro s cs r h
    exact commandSpecLoop_ok_le (s.length + 1) [] s cs r h (by simp)
  · intro ts rest hwf hlim
    have hfuel : ts.length ≤ (tagsChars ts ++ rest).length + 1 := by
      have := tagsChars_length ts
      simp only [List.length_append]
      omega
    exact commandSpecLoop_overflow ts ((tagsChars ts ++ rest).length + 1) [] rest hwf
      (by simp) (by simpa using hlim) hfuel

/-- Witness for C9: a successful small parse stays within the limit,
and 128 `NOPASSWD:` tags overflow it. -/
theorem commandSpec_tag_limit_w :
    (CommandSpec.mk [] (.Allow .All)).tags.length ≤ CommandSpec.LIMIT ∧
    (commandSpecParse (tagsChars (List.replicate 128 .nopasswd))).1 =
      .error (.fatal "parse error: too many tags for command specifier") := by
  constructor
  · exact commandSpec_tag_limit.1 "ALL".toList ⟨[], .Allow .All⟩ [] rfl
  · have h := commandSpec_tag_limit.2 (List.replicate 128 .nopasswd) []
      (fun t ht => by rw [List.eq_of_mem_replicate ht]; rfl)
      (by rw [List.length_replicate]; decide)
    simpa using h

/-- C1 counterexample: `NOEXEC:` does not attach a tag — the parser
takes `NOEXEC` as the command alias terminating the (empty) tag prefix
and leaves the `:` on the stream. -/
theorem commandSpec_noexec_counterexample :
    commandSpecParse "NOEXEC: /bin/foo".toList =
      (.ok ⟨[], .Allow (.Alias "NOEXEC")⟩, ": /bin/foo".toList) := by
  rfl

/-- C5 counterexample: a line whose userlist contains the directive
keyword `User_Alias` in non-initial position parses successfully as a
permission line (the keyword is taken as an ordinary user name), not as
a parse error. -/
theorem sudoParse_nonInitial_keyword_ok :
    sudoParse "marc, User_Alias ALL=ALL".toList =
      (.ok (.Spec ⟨[.Allow (.Only (.User (.Name "marc"))),
                    .Allow (.Only (.User (.Name "User_Alias")))],
                   [([.Allow .All], none, [⟨[], .Allow .All⟩])]⟩), []) := by
  rfl

/-- C5 (amended): a hard parse error arises when the directive keyword
is the *initial* element of a userlist with more than one element (and
the directive body parses); a directive keyword in a non-initial
position is parsed as an ordinary user name (see the counterexample). -/
theorem sudoParse_initial_keyword_error (s s₁ s₂ : List Char)
    (u : Spec UserSpecifier) (us : SpecList UserSpecifier) (d : Directive)
    (h0 : s.head? ≠ some '@') (h1 : s.head? ≠ some '#')
    (hu : specListUserParse s = (.ok (u :: us), s₁))
    (hne : us ≠ [])
    (hd : get_directive u s₁ = (.ok d, s₂)) :
    sudoParse s =
      (.error (.fatal "parse error: user name list cannot start with a directive keyword"), s₂) := by
  cases s with
  | nil =>
    rw [show specListUserParse [] =
        ((.error .reject : Except PStatus (SpecList UserSpecifier)), ([] : List Char)) from rfl] at hu
    simp at hu
  | cons c s₀ =>
    have hc1 : (c == '@') = false := by
      simp only [beq_eq_false_iff_ne, ne_eq]
      intro hEq
      exact h0 (by rw [hEq]; rfl)
    have hc2 : ¬((c :: s₀).head? = some '#') := h1
    have hlen : (u :: us).length ≠ 1 := by
      simp only [List.length_cons, ne_eq, Nat.add_left_eq_self]
      intro hEq
      have : us.length = 0 := by omega
      exact hne (List.length_eq_zero.mp this)
    simp only [sudoParse, accept_if, hc1, Bool.false_eq_true, if_false, hc2, hu, hd]
    rw [if_pos hlen]

/-- Witness for C5 (amended) at the line `User_Alias, marc ALL=ALL`. -/
theorem sudoParse_initial_keyword_error_w :
    sudoParse "User_Alias, marc ALL=ALL".toList =
      (.error (.fatal "parse error: user name list cannot start with a directive keyword"), []) := by
  apply sudoParse_initial_keyword_error "User_Alias, marc ALL=ALL".toList "ALL=ALL".toList []
    (.Allow (.Only (.User (.Name "User_Alias")))) [.Allow (.Only (.User (.Name "marc")))]
    (.UserAlias ⟨"ALL", [.Allow .All]⟩)
  · intro h
    simp at h
  · intro h
    simp at h
  · rfl
  · intro h
    simp at h
  · rfl

/-- C6: when a line begins with `#`, the parser first attempts a
numeric user id; on success the line is a permission spec whose first
user is that uid (with or without a following comma-separated rest of
the userlist); otherwise it attempts an include directive; otherwise it
consumes the rest of the line as a comment. -/
theorem sudoParse_hash_dispatch (s₀ : List Char) :
    (∀ uid s₁ ps s₂,
       identifierParse ('#' :: s₀) = (.ok uid, s₁) →
       s₁.head? ≠ some ',' →
       expectNT permissionsParse s₁ = (.ok ps, s₂) →
       sudoParse ('#' :: s₀) = (.ok (.Spec ⟨[.Allow (.Only (.User uid))], ps⟩), s₂)) ∧
    (∀ uid s₁ us s₂ ps s₃,
       identifierParse ('#' :: s₀) = (.ok uid, s₁) →
       s₁.head? = some ',' →
       expectNT specListUserParse (skipWs s₁.tail) = (.ok us, s₂) →
       expectNT permissionsParse s₂ = (.ok ps, s₃) →
       sudoParse ('#' :: s₀) = (.ok (.Spec ⟨.Allow (.Only (.User uid)) :: us, ps⟩), s₃)) ∧
    (∀ e s₁ r s₂,
       identifierParse ('#' :: s₀) = (.error e, s₁) →
       parse_include s₁ = (.ok r, s₂) →
       sudoParse ('#' :: s₀) = (.ok r, s₂)) ∧
    (∀ e s₁ e' s₂,
       identifierParse ('#' :: s₀) = (.error e, s₁) →
       parse_include s₁ = (.error e', s₂) →
       sudoParse ('#' :: s₀) = (.ok .LineComment, s₂.dropWhile (fun c => c != '\n'))) := by
  refine ⟨?_, ?_, ?_, ?_⟩
  · intro uid s₁ ps s₂ hid hcomma hperm
    have hsym : symOpt ',' s₁ = (.ok false, s₁) := by
      cases s₁ with
      | nil => rfl
      | cons c rest =>
        have hc : ¬(c = ',') := fun hEq => hcomma (by rw [hEq]; rfl)
        simp [symOpt, hc]
    simp only [sudoParse, accept_if, hid, hsym, hperm]
    rfl
  · intro uid s₁ us s₂ ps s₃ hid hcomma hrest hperm
    cases s₁ with
    | nil => simp at hcomma
    | cons c rest =>
      have hc : c = ',' := by
        simpa using hcomma
      subst hc
      have hsym : symOpt ',' (',' :: rest) = (.ok true, skipWs rest) := rfl
      simp only [List.tail_cons] at hrest
      simp only [sudoParse, accept_if, hid, hsym, hrest, hperm]
      rfl
  · intro e s₁ r s₂ hid hinc
    simp only [sudoParse, accept_if, hid, hinc]
    rfl
  · intro e s₁ e' s₂ hid hinc
    simp only [sudoParse, accept_if, hid, hinc]
    rfl

/-- Witness for C6 at `#1000 ALL=ALL`, `#0, marc ALL=ALL`,
`#include "/etc/sudoers2"` and `# some comment`. -/
theorem sudoParse_hash_dispatch_w :
    sudoParse "#1000 ALL=ALL".toList =
      (.ok (.Spec ⟨[.Allow (.Only (.User (.ID 1000)))],
                   [([.Allow .All], none, [⟨[], .Allow .All⟩])]⟩), []) ∧
    sudoParse "#0, marc ALL=ALL".toList =
      (.ok (.Spec ⟨[.Allow (.Only (.User (.ID 0))),
                    .Allow (.Only (.User (.Name "marc")))],
                   [([.Allow .All], none, [⟨[], .Allow .All⟩])]⟩), []) ∧
    sudoParse "#include \"/etc/sudoers2\"".toList =
      (.ok (.Include "/etc/sudoers2"), []) ∧
    sudoParse "# some comment".toList = (.ok .LineComment, []) := by
  refine ⟨?_, ?_, ?_, ?_⟩
  · exact (sudoParse_hash_dispatch "1000 ALL=ALL".toList).1 (.ID 1000) "ALL=ALL".toList
      _ [] rfl (by intro h; simp at h) rfl
  · exact (sudoParse_hash_dispatch "0, marc ALL=ALL".toList).2.1 (.ID 0)
      ", marc ALL=ALL".toList [.Allow (.Only (.User (.Name "marc")))] "ALL=ALL".toList
      _ [] rfl rfl rfl rfl
  · exact (sudoParse_hash_dispatch "include \"/etc/sudoers2\"".toList).2.2.1
      (.fatal "parse error: expected nonterminal") "include \"/etc/sudoers2\"".toList
      (.Include "/etc/sudoers2") [] rfl rfl
  · exact (sudoParse_hash_dispatch " some comment".toList).2.2.2
      (.fatal "parse error: expected nonterminal") " some comment".toList
      (.fatal "unknown directive") " some comment".toList rfl rfl

end SudoRS
